import Mathlib

/-!
Shallow embedding of the benchmark collection tool
(`perf-tracking/tools/collect_benchmarks.py`).

Files are modelled as lists of lines (`List String`); every line of an
on-disk report is terminated by a newline, both when read (the source
strips the trailing newline of each line) and when written (the source
writes `line + "\n"` for every line), so equality of line lists is
byte-for-byte equality of file contents.

Real-valued timing data is modelled with `ℝ`; the source's floating
point arithmetic is idealised as exact real arithmetic.
-/

/-- `PackageSection` from the source: one package's report block with
header lines (`goos`/`goarch`/`pkg`/`cpu`), an insertion-ordered map
from benchmark name to its raw result lines (the source keeps a `dict`
plus a first-seen order list; we model the pair as an insertion-ordered
association list), and footer lines (`PASS`/`ok`/`FAIL`). -/
structure PackageSection where
  header_lines : List String
  benchmark_lines : List (String × List String)
  footer_lines : List String
deriving DecidableEq

/-- `BenchmarkFile` from the source: a parsed benchmark output file. -/
structure BenchmarkFile where
  sections : List PackageSection
deriving DecidableEq

/-- Character-list matching helper: `leadingMatch p s` is true iff the
character list `p` is an initial segment of `s` (used to model Python's
`str.startswith`). -/
def leadingMatch : List Char → List Char → Bool
  | [], _ => true
  | _ :: _, [] => false
  | p :: ps, c :: cs => p == c && leadingMatch ps cs

/-- Python `line.startswith(pat)`. -/
def strStartsWith (s pat : String) : Bool :=
  leadingMatch pat.data s.data

/-- Python `s.endswith(pat)`: the last `pat.length` characters of `s`
equal `pat`. -/
def strEndsWith (s pat : String) : Bool :=
  decide (pat.data.length ≤ s.data.length) &&
    (s.data.drop (s.data.length - pat.data.length) == pat.data)

/-- The index `i` (if any) at which the regex `^(Benchmark\S+)-\d+`
splits the non-whitespace run `cs` that follows `"Benchmark"`: the
largest `i ≥ 1` such that `cs` has `'-'` at `i` followed by a digit.
The greedy `\S+` of the source regex takes the longest such split. -/
def lastSplitIdx (cs : List Char) : Option Nat :=
  ((List.range cs.length).filter (fun i =>
    decide (1 ≤ i) && (cs.get? i == some '-') &&
      ((cs.get? (i + 1)).any Char.isDigit))).getLast?

/-- Group 1 of `re.match(r'^(Benchmark\S+)-\d+', line)` in
`parse_benchmark_file`: the benchmark name before the trailing CPU
suffix, or `none` when the regex does not match. -/
def extractBenchName (line : String) : Option String :=
  if strStartsWith line "Benchmark" then
    let t := (line.data.drop 9).takeWhile (fun c => !c.isWhitespace)
    match lastSplitIdx t with
    | some i => some ("Benchmark" ++ String.mk (t.take i))
    | none => none
  else none

/-- Append one result line under a benchmark name: matches the source's
`benchmark_lines_dict[bench_name].append(stripped)` together with the
first-seen `benchmark_order` list (an existing key keeps its position
and grows its line list; a new key is appended at the end). -/
def benchAdd (d : List (String × List String)) (n line : String) :
    List (String × List String) :=
  if d.any (fun p => p.1 == n) then
    d.map (fun p => if p.1 == n then (p.1, p.2 ++ [line]) else p)
  else d ++ [(n, [line])]

/-- The parser's current block, `current_section` in the source
(`none` models Python's `None`). -/
inductive PMode where
  | header
  | benchmarks
  | footer
deriving DecidableEq

/-- Fold state of `parse_benchmark_file`. -/
structure ParseState where
  sections : List PackageSection
  header_lines : List String
  bench : List (String × List String)
  footer_lines : List String
  mode : Option PMode

/-- Close the accumulators into a `PackageSection` and append it, as the
source does when a new `goos:` line arrives or at end of input. -/
def flushSection (st : ParseState) : List PackageSection :=
  st.sections ++ [⟨st.header_lines, st.bench, st.footer_lines⟩]

/-- One iteration of the line loop of `parse_benchmark_file`. -/
def parseLine (st : ParseState) (line : String) : ParseState :=
  if strStartsWith line "goos:" then
    let st' :=
      if st.mode ≠ none ∨ st.header_lines ≠ [] then
        { sections := flushSection st, header_lines := [], bench := [],
          footer_lines := [], mode := none }
      else st
    { st' with header_lines := st'.header_lines ++ [line],
               mode := some PMode.header }
  else if st.mode = some PMode.header ∧
      (strStartsWith line "goarch:" ∨ strStartsWith line "pkg:" ∨
        strStartsWith line "cpu:") then
    { st with header_lines := st.header_lines ++ [line] }
  else if strStartsWith line "Benchmark" then
    match extractBenchName line with
    | some n =>
        { st with bench := benchAdd st.bench n line,
                  mode := some PMode.benchmarks }
    | none => { st with mode := some PMode.benchmarks }
  else if st.mode = some PMode.benchmarks ∧
      (strStartsWith line "PASS" ∨ strStartsWith line "ok" ∨
        strStartsWith line "FAIL") then
    { st with footer_lines := st.footer_lines ++ [line],
              mode := some PMode.footer }
  else if st.mode = some PMode.footer then
    { st with footer_lines := st.footer_lines ++ [line] }
  else st

/-- `parse_benchmark_file` from the source: fold the line handler over
the file and flush the last section when one is open. -/
def parse_benchmark_file (lines : List String) : BenchmarkFile :=
  let st := lines.foldl parseLine ⟨[], [], [], [], none⟩
  if st.mode ≠ none ∨ st.header_lines ≠ [] then ⟨flushSection st⟩
  else ⟨st.sections⟩

/-- The write loop of `merge_benchmark_results`: headers, then each
benchmark's lines in order, then footers, for each section in order. -/
def serialize_section (s : PackageSection) : List String :=
  s.header_lines ++ (s.benchmark_lines.map (fun e => e.2)).flatten ++
    s.footer_lines

/-- Serialization of a whole parsed file, section by section. -/
def serialize_file (f : BenchmarkFile) : List String :=
  (f.sections.map serialize_section).flatten

/-- Python `dict` assignment `m[k] = v`: replace the value of an
existing key in place, else append the new binding. -/
def dictInsert (m : List (String × List String)) (k : String)
    (v : List String) : List (String × List String) :=
  if m.any (fun p => p.1 == k) then
    m.map (fun p => if p.1 == k then (k, v) else p)
  else m ++ [(k, v)]

/-- The `retry_benchmarks` lookup table of `merge_benchmark_results`:
every benchmark of every section of the retry file, a later section's
entry overriding an earlier one with the same name. -/
def retry_benchmarks (retry : BenchmarkFile) :
    List (String × List String) :=
  ((retry.sections.map (fun s => s.benchmark_lines)).flatten).foldl
    (fun m e => dictInsert m e.1 e.2) []

/-- The per-entry replacement rule of `merge_benchmark_results`: an
authorized name found in the retry table is swapped for the retry
lines; everything else keeps its original lines. -/
def mergeEntry (retryMap : List (String × List String))
    (auth : List String) (e : String × List String) :
    String × List String :=
  if e.1 ∈ auth then
    match retryMap.lookup e.1 with
    | some rls => (e.1, rls)
    | none => e
  else e

/-- Per-section merge: headers and footers are carried over unchanged;
the benchmark entries are rewritten in place. -/
def mergeSection (retryMap : List (String × List String))
    (auth : List String) (s : PackageSection) : PackageSection :=
  ⟨s.header_lines, s.benchmark_lines.map (mergeEntry retryMap auth),
    s.footer_lines⟩

/-- The structural core of `merge_benchmark_results`: replace the
authorized benchmarks of the original parsed file with the retry
file's entries. -/
def merge_benchmark_results (orig retry : BenchmarkFile)
    (auth : List String) : BenchmarkFile :=
  ⟨orig.sections.map (mergeSection (retry_benchmarks retry) auth)⟩

/-- File-level merge: parse both inputs, merge, serialize — the full
data path of `merge_benchmark_results` from original file to output
file (the temp-file/rename mechanics carry these lines verbatim). -/
def merge_files (origLines retryLines : List String)
    (auth : List String) : List String :=
  serialize_file
    (merge_benchmark_results (parse_benchmark_file origLines)
      (parse_benchmark_file retryLines) auth)

/-- `re.sub(r'-\d+$', '', name)` in `create_benchmark_filters`: remove
a trailing CPU-count marker, i.e. a final `'-'` followed by one or more
digits reaching the end of the name. -/
def stripCpuSuffix (name : String) : String :=
  let r := name.data.reverse
  let ds := r.takeWhile Char.isDigit
  if ds ≠ [] ∧ (r.drop ds.length).head? = some '-' then
    String.mk ((r.drop (ds.length + 1)).reverse)
  else name

/-- Whether a parsed name is a `parent/sub` pair (Python `'/' in name`). -/
def hasSlash (n : String) : Bool := n.data.contains '/'

/-- Python `name.split('/', 1)` for a name containing `'/'`: the part
before the first slash and the rest after it. -/
def splitOnFirstSlash (n : String) : Option (String × String) :=
  let a := n.data.takeWhile (fun c => c ≠ '/')
  let b := n.data.dropWhile (fun c => c ≠ '/')
  match b with
  | [] => none
  | _ :: rest => some (String.mk a, String.mk rest)

/-- Stable insertion into an ascending list: the new element goes after
every element that compares below-or-equal, matching the placement of
Python's stable `sorted`. -/
def sortedInsert (le : α → α → Bool) (x : α) : List α → List α
  | [] => [x]
  | y :: ys => if le y x then y :: sortedInsert le x ys else x :: y :: ys

/-- Stable insertion sort, processing elements left to right. -/
def isortBy (le : α → α → Bool) (l : List α) : List α :=
  l.foldl (fun acc x => sortedInsert le x acc) []

/-- Python `sorted` over strings: ascending lexicographic order by
code points. -/
def sortStrings (l : List String) : List String :=
  isortBy (fun a b => a == b || decide (a < b)) l

/-- The `top_levels` set of `create_benchmark_filters`, as the sorted
list Python's `sorted(top_levels)` produces: parsed names without a
slash, deduplicated and sorted. -/
def topLevelNames (benchmark_names : List String) : List String :=
  sortStrings (((benchmark_names.map stripCpuSuffix).filter
    (fun n => !hasSlash n)).dedup)

/-- The `parents` set of `create_benchmark_filters`, sorted. -/
def parentNames (benchmark_names : List String) : List String :=
  sortStrings (((benchmark_names.map stripCpuSuffix).filterMap
    (fun n => (splitOnFirstSlash n).map (fun p => p.1))).dedup)

/-- The `subtests` set of `create_benchmark_filters`, sorted. -/
def subtestNames (benchmark_names : List String) : List String :=
  sortStrings (((benchmark_names.map stripCpuSuffix).filterMap
    (fun n => (splitOnFirstSlash n).map (fun p => p.2))).dedup)

/-- `create_benchmark_filters` from the source: strip CPU suffixes,
split names into top-level names and parent/sub pairs, and emit one
`^(...)$` filter for the top-level names (when any) followed by one
`^(parents)$/^(subs)$` filter for the pairs (when any). -/
def create_benchmark_filters (benchmark_names : List String) :
    List String :=
  (if topLevelNames benchmark_names ≠ [] then
    ["^(" ++ String.intercalate "|" (topLevelNames benchmark_names) ++ ")$"]
  else []) ++
  (if parentNames benchmark_names ≠ [] then
    ["^(" ++ String.intercalate "|" (parentNames benchmark_names) ++
      ")$/^(" ++ String.intercalate "|" (subtestNames benchmark_names) ++
      ")$"]
  else [])

/-- A filesystem path, split into its directory components and final
file name (the only parts `derive_original_output_file` inspects). -/
structure PurePath where
  parent : List String
  fileName : String
deriving DecidableEq

/-- Index of the last `'.'` in a file name, if any. -/
def lastDotIdx (cs : List Char) : Option Nat :=
  ((List.range cs.length).filter (fun i => cs.get? i == some '.')).getLast?

/-- `pathlib.PurePath.stem`: the file name without its final extension;
the extension exists only when the last dot is neither the first nor
the last character. -/
def pathStem (name : String) : String :=
  match lastDotIdx name.data with
  | some i =>
      if 0 < i ∧ i < name.data.length - 1 then String.mk (name.data.take i)
      else name
  | none => name

/-- `derive_original_output_file` from the source: strip the
`_failed_benchmarks` marker from the stem and re-attach `.txt` in the
same directory, or fail with a `ValueError` message when the stem does
not end in the marker. -/
def derive_original_output_file (p : PurePath) : Except String PurePath :=
  let st := pathStem p.fileName
  if strEndsWith st "_failed_benchmarks" then
    Except.ok ⟨p.parent,
      String.mk (st.data.take (st.data.length - 18)) ++ ".txt"⟩
  else
    Except.error ("Invalid failed benchmarks filename: " ++ p.fileName ++
      " (expected format: *_failed_benchmarks.txt)")

/-- The retry loop of `run_variance_aware_benchmarks`. `ex n` models
the `n`-th retry round (one `run_benchmarks` call followed by
`analyze_variance`): `none` when the executor invocation fails (the
source's `break`), `some l` when it succeeds with `l` the benchmarks
still failing the variance check. The loop returns the final failing
list together with the final retry counter, exactly as the source's
`while failed and retry_count < max_reruns` loop leaves `failed` and
`retry_count`. Totality of this definition (by the decreasing measure
`maxR - rc`, the source's own loop variant) is the termination of the
source loop. -/
def retryLoop (ex : Nat → Option (List String)) (maxR rc : Nat)
    (failed : List String) : List String × Nat :=
  if h : failed ≠ [] ∧ rc < maxR then
    match ex (rc + 1) with
    | none => (failed, rc + 1)
    | some retryFailed => retryLoop ex maxR (rc + 1) retryFailed
  else (failed, rc)
termination_by maxR - rc
decreasing_by
  obtain ⟨-, h2⟩ := h
  omega

/-- `BenchmarkResult` from the source: one parsed benchmark line. -/
structure BenchmarkResult where
  name : String
  iterations : Nat
  ns_per_op : ℝ
  bytes_per_op : Option Nat := none
  allocs_per_op : Option Nat := none

/-- Variance threshold `VARIANCE_GOOD` (CV %). -/
def VARIANCE_GOOD : ℝ := 5
/-- Variance threshold `VARIANCE_ACCEPTABLE` (CV %). -/
def VARIANCE_ACCEPTABLE : ℝ := 10
/-- Variance threshold `VARIANCE_WARNING` (CV %). -/
def VARIANCE_WARNING : ℝ := 15
/-- Variance threshold `VARIANCE_HIGH` (CV %). -/
def VARIANCE_HIGH : ℝ := 30

/-- `BenchmarkStats` from the source: statistics of one benchmark. -/
structure BenchmarkStats where
  name : String
  count : Nat
  mean : ℝ
  stddev : ℝ
  cv : ℝ
  min_val : ℝ
  max_val : ℝ

/-- `statistics.mean`: the sample mean. -/
noncomputable def pyMean (xs : List ℝ) : ℝ := xs.sum / xs.length

/-- The sample variance underlying `statistics.stdev` (denominator
`n - 1`). -/
noncomputable def pyVariance (xs : List ℝ) : ℝ :=
  ((xs.map (fun x => (x - pyMean xs) ^ 2)).sum) / ((xs.length : ℝ) - 1)

/-- `statistics.stdev`: the sample standard deviation. -/
noncomputable def pyStdev (xs : List ℝ) : ℝ := Real.sqrt (pyVariance xs)

/-- Python `min` over a nonempty list (the source only calls it on
lists of length at least 2). -/
noncomputable def listMin : List ℝ → ℝ
  | [] => 0
  | x :: xs => xs.foldl min x

/-- Python `max` over a nonempty list. -/
noncomputable def listMax : List ℝ → ℝ
  | [] => 0
  | x :: xs => xs.foldl max x

/-- Insertion order of a Python `dict` keyed by benchmark name: each
name at its first occurrence. -/
def firstSeen (l : List String) : List String :=
  l.foldl (fun acc n => if acc.contains n then acc else acc ++ [n]) []

/-- The `ns_per_op` values grouped under one benchmark name by
`calculate_stats`, in input order. -/
def groupValues (results : List BenchmarkResult) (n : String) : List ℝ :=
  (results.filter (fun r => r.name == n)).map (fun r => r.ns_per_op)

/-- The `BenchmarkStats` record built inside `calculate_stats` for one
group: `cv = stddev / mean * 100` when `mean > 0` and `0` otherwise
(the source's divide-by-zero guard). -/
noncomputable def statRecord (n : String) (values : List ℝ) :
    BenchmarkStats :=
  { name := n
    count := values.length
    mean := pyMean values
    stddev := pyStdev values
    cv := if 0 < pyMean values then
            pyStdev values / pyMean values * 100
          else 0
    min_val := listMin values
    max_val := listMax values }

/-- `BenchmarkParser.calculate_stats` from the source: group the
results by name (first-seen order), drop groups with fewer than two
samples, and build a `BenchmarkStats` per remaining group. -/
noncomputable def calculate_stats (results : List BenchmarkResult) :
    List BenchmarkStats :=
  (firstSeen (results.map (fun r => r.name))).filterMap (fun n =>
    if (groupValues results n).length < 2 then none
    else some (statRecord n (groupValues results n)))

/-- `BenchmarkStats.category` from the source: classify the CV against
the four ascending thresholds. -/
noncomputable def BenchmarkStats.category (s : BenchmarkStats) : String :=
  if s.cv < VARIANCE_GOOD then "good"
  else if s.cv < VARIANCE_ACCEPTABLE then "acceptable"
  else if s.cv < VARIANCE_WARNING then "warning"
  else if s.cv < VARIANCE_HIGH then "high"
  else "very_high"

/-- `BenchmarkStats.passed` from the source: variance is acceptable
when the CV is below `VARIANCE_WARNING` (15 %). -/
noncomputable def BenchmarkStats.passed (s : BenchmarkStats) : Bool :=
  decide (s.cv < VARIANCE_WARNING)

/-- Position of a category in the ascending enumeration
good / acceptable / warning / high / very_high (a specification-side
helper for stating monotonicity). -/
def catRank (c : String) : Nat :=
  if c = "good" then 0
  else if c = "acceptable" then 1
  else if c = "warning" then 2
  else if c = "high" then 3
  else 4

/-- The failing-list computation of `BenchmarkRunner.analyze_variance`:
collect the stats in categories `high` and `very_high`, traverse them
in descending CV order (the source sorts for its report printout; the
sort is stable, mirroring Python's `sorted` with `reverse=True`), and
keep the names whose CV strictly exceeds the threshold. -/
noncomputable def analyze_failed (stats : List BenchmarkStats)
    (threshold : ℝ) : List String :=
  ((isortBy (fun a b => decide (b.cv ≤ a.cv))
      (stats.filter (fun s =>
        s.category == "high" || s.category == "very_high"))).filter
    (fun s => decide (threshold < s.cv))).map (fun s => s.name)

/-- A concrete parsed report for the variance-analysis counterexample:
one benchmark with samples 85, 115 and 100 ns/op, whose CV is exactly
the 15 % warning threshold. -/
noncomputable def exVarResults : List BenchmarkResult :=
  [⟨"BenchmarkX", 10, 85, none, none⟩,
   ⟨"BenchmarkX", 10, 115, none, none⟩,
   ⟨"BenchmarkX", 10, 100, none, none⟩]

/-! ## Helper lemmas -/

theorem mergeEntry_fst (rm : List (String × List String))
    (auth : List String) (e : String × List String) :
    (mergeEntry rm auth e).1 = e.1 := by
  unfold mergeEntry
  by_cases h : e.1 ∈ auth
  · simp only [if_pos h]
    cases rm.lookup e.1 <;> simp
  · simp [if_neg h]

theorem mergeEntry_empty_auth (rm : List (String × List String))
    (e : String × List String) : mergeEntry rm [] e = e := by
  simp [mergeEntry]

theorem mergeSection_empty_auth (rm : List (String × List String))
    (s : PackageSection) : mergeSection rm [] s = s := by
  cases s with
  | mk h b f =>
    simp only [mergeSection, PackageSection.mk.injEq, true_and, and_true]
    calc b.map (mergeEntry rm []) = b.map id :=
          List.map_eq_map_iff.mpr (fun e _ => mergeEntry_empty_auth rm e)
      _ = b := List.map_id b

theorem merge_empty_auth (orig retry : BenchmarkFile) :
    merge_benchmark_results orig retry [] = orig := by
  cases orig with
  | mk secs =>
    simp only [merge_benchmark_results, BenchmarkFile.mk.injEq]
    calc secs.map (mergeSection (retry_benchmarks retry) [])
        = secs.map id := List.map_eq_map_iff.mpr
          (fun s _ => mergeSection_empty_auth _ s)
      _ = secs := List.map_id secs

theorem forall2_map_self {α β : Type} (R : α → β → Prop) (f : α → β)
    (l : List α) (h : ∀ x ∈ l, R x (f x)) :
    List.Forall₂ R l (l.map f) := by
  induction l with
  | nil => simp
  | cons a t ih =>
      simp only [List.map_cons, List.forall₂_cons]
      exact ⟨h a (by simp), ih (fun x hx => h x (by simp [hx]))⟩

/-! ## Claims -/

/-- C1. For every original structured report, replacement structured
report, and authorized benchmark-name set, the merge operation produces
a report in which, for every section, every benchmark entry whose name
is in the authorized set and present in the replacement report has its
line list replaced wholesale by the replacement's line list for that
name, while every other entry (not authorized, or authorized but absent
from the replacement) keeps its original line list, and section order,
header lines, footer lines, and the order of benchmark entries are
unchanged. -/
theorem C1_merge_semantics (orig retry : BenchmarkFile)
    (auth : List String) :
    List.Forall₂ (fun os ms =>
      ms.header_lines = os.header_lines ∧
      ms.footer_lines = os.footer_lines ∧
      List.Forall₂ (fun (oe me : String × List String) =>
        me.1 = oe.1 ∧
        (∀ rls, oe.1 ∈ auth →
          (retry_benchmarks retry).lookup oe.1 = some rls → me.2 = rls) ∧
        (oe.1 ∈ auth → (retry_benchmarks retry).lookup oe.1 = none →
          me.2 = oe.2) ∧
        (oe.1 ∉ auth → me.2 = oe.2))
        os.benchmark_lines ms.benchmark_lines)
      orig.sections (merge_benchmark_results orig retry auth).sections := by
  unfold merge_benchmark_results
  apply forall2_map_self
  intro s _
  refine ⟨rfl, rfl, ?_⟩
  apply forall2_map_self
  intro e _
  refine ⟨mergeEntry_fst _ _ _, ?_, ?_, ?_⟩
  · intro rls hmem hlook
    simp [mergeEntry, if_pos hmem, hlook]
  · intro hmem hlook
    simp [mergeEntry, if_pos hmem, hlook]
  · intro hmem
    simp [mergeEntry, if_neg hmem]

/-- Witness for C1 at a concrete pair of reports: an authorized name
present in the retry file, an authorized name absent from it, and an
unauthorized name. -/
theorem C1_merge_semantics_witness :
    List.Forall₂ (fun os ms =>
      ms.header_lines = os.header_lines ∧
      ms.footer_lines = os.footer_lines ∧
      List.Forall₂ (fun (oe me : String × List String) =>
        me.1 = oe.1 ∧
        (∀ rls, oe.1 ∈ ["BenchmarkA", "BenchmarkC"] →
          (retry_benchmarks ⟨[⟨["goos: l"],
            [("BenchmarkA", ["BenchmarkA-8 1 9 ns/op"])], ["PASS"]⟩]⟩).lookup
            oe.1 = some rls → me.2 = rls) ∧
        (oe.1 ∈ ["BenchmarkA", "BenchmarkC"] →
          (retry_benchmarks ⟨[⟨["goos: l"],
            [("BenchmarkA", ["BenchmarkA-8 1 9 ns/op"])], ["PASS"]⟩]⟩).lookup
            oe.1 = none → me.2 = oe.2) ∧
        (oe.1 ∉ ["BenchmarkA", "BenchmarkC"] → me.2 = oe.2))
        os.benchmark_lines ms.benchmark_lines)
      (BenchmarkFile.mk [⟨["goos: l"],
        [("BenchmarkA", ["BenchmarkA-8 1 2 ns/op"]),
         ("BenchmarkB", ["BenchmarkB-8 1 3 ns/op"]),
         ("BenchmarkC", ["BenchmarkC-8 1 4 ns/op"])], ["PASS"]⟩]).sections
      (merge_benchmark_results
        (BenchmarkFile.mk [⟨["goos: l"],
          [("BenchmarkA", ["BenchmarkA-8 1 2 ns/op"]),
           ("BenchmarkB", ["BenchmarkB-8 1 3 ns/op"]),
           ("BenchmarkC", ["BenchmarkC-8 1 4 ns/op"])], ["PASS"]⟩])
        ⟨[⟨["goos: l"], [("BenchmarkA", ["BenchmarkA-8 1 9 ns/op"])],
          ["PASS"]⟩]⟩
        ["BenchmarkA", "BenchmarkC"]).sections :=
  C1_merge_semantics _ _ _

/-- C10. For every original report, replacement report, and authorized
set, the merged output's sequence of benchmark names per section is
exactly the original's (same names, same order, same count): a
benchmark present only in the replacement report is never added to the
output, regardless of whether its name is in the authorized set. -/
theorem C10_name_sequence_preserved (orig retry : BenchmarkFile)
    (auth : List String) :
    (merge_benchmark_results orig retry auth).sections.map
      (fun s => s.benchmark_lines.map Prod.fst) =
    orig.sections.map (fun s => s.benchmark_lines.map Prod.fst) := by
  unfold merge_benchmark_results
  simp only [List.map_map]
  apply List.map_eq_map_iff.mpr
  intro s _
  simp only [Function.comp, mergeSection, List.map_map]
  apply List.map_eq_map_iff.mpr
  intro e _
  exact mergeEntry_fst _ _ _

/-- C3, counterexample. The claim says merging ANY original report file
with an empty authorized set reproduces the file byte-for-byte. A file
whose single line is `"x"` is not reproduced: the parser recognises no
section structure in it, drops the line, and the merge output is empty. -/
theorem C3_counterexample : merge_files ["x"] [] [] ≠ ["x"] := by decide

/-- C3, amended: for every original report file that the parser
reproduces (parse followed by serialize returns exactly the original
lines — true of every well-formed report the tool itself writes),
merging it with an authorized set equal to the empty set (and any
replacement report) produces an output byte-for-byte equivalent to the
original file. -/
theorem C3_empty_auth_idempotent (origLines retryLines : List String)
    (h : serialize_file (parse_benchmark_file origLines) = origLines) :
    merge_files origLines retryLines [] = origLines := by
  unfold merge_files
  rw [merge_empty_auth]
  exact h

/-- Witness for C3 (amended) at a concrete well-formed report. -/
theorem C3_empty_auth_idempotent_witness :
    merge_files
      ["goos: linux", "goarch: arm64", "pkg: bench", "cpu: M1",
       "BenchmarkAlpha-8\t100\t50 ns/op", "BenchmarkAlpha-8\t100\t51 ns/op",
       "BenchmarkBeta-8\t10\t5 ns/op", "PASS", "ok bench 1.0s"]
      ["goos: linux", "BenchmarkAlpha-8\t100\t60 ns/op", "PASS"] [] =
      ["goos: linux", "goarch: arm64", "pkg: bench", "cpu: M1",
       "BenchmarkAlpha-8\t100\t50 ns/op", "BenchmarkAlpha-8\t100\t51 ns/op",
       "BenchmarkBeta-8\t10\t5 ns/op", "PASS", "ok bench 1.0s"] :=
  C3_empty_auth_idempotent _ _ (by decide)

theorem length_sortedInsert {α : Type} (le : α → α → Bool) (x : α)
    (l : List α) : (sortedInsert le x l).length = l.length + 1 := by
  induction l with
  | nil => rfl
  | cons y ys ih =>
      unfold sortedInsert
      by_cases h : le y x = true
      · simp [h, ih]
      · simp [h]

theorem length_isortBy {α : Type} (le : α → α → Bool) (l : List α) :
    (isortBy le l).length = l.length := by
  suffices h : ∀ acc : List α,
      (l.foldl (fun acc x => sortedInsert le x acc) acc).length =
        acc.length + l.length by
    simpa using h []
  induction l with
  | nil => intro acc; simp
  | cons y ys ih =>
      intro acc
      simp only [List.foldl_cons, ih, length_sortedInsert,
        List.length_cons]
      omega

theorem mem_sortedInsert {α : Type} (le : α → α → Bool) (x a : α)
    (l : List α) : a ∈ sortedInsert le x l ↔ a = x ∨ a ∈ l := by
  induction l with
  | nil => simp [sortedInsert]
  | cons y ys ih =>
      unfold sortedInsert
      by_cases h : le y x = true
      · rw [if_pos h]
        simp only [List.mem_cons, ih]
        tauto
      · rw [if_neg h]
        simp only [List.mem_cons]

theorem mem_isortBy {α : Type} (le : α → α → Bool) (a : α)
    (l : List α) : a ∈ isortBy le l ↔ a ∈ l := by
  suffices h : ∀ acc : List α,
      a ∈ l.foldl (fun acc x => sortedInsert le x acc) acc ↔
        a ∈ acc ∨ a ∈ l by
    simpa [isortBy] using h []
  induction l with
  | nil => intro acc; simp
  | cons y ys ih =>
      intro acc
      simp only [List.foldl_cons, ih, mem_sortedInsert, List.mem_cons]
      tauto

theorem sortStrings_ne_nil (l : List String) (h : l ≠ []) :
    sortStrings l ≠ [] := by
  intro hc
  apply h
  have := length_isortBy (fun a b => a == b || decide (a < b)) l
  rw [sortStrings] at hc
  rw [hc] at this
  exact List.length_eq_zero.mp this.symm

theorem splitOnFirstSlash_isSome (n : String) (h : hasSlash n = true) :
    ∃ p, splitOnFirstSlash n = some p := by
  unfold splitOnFirstSlash
  cases hb : n.data.dropWhile (fun c => c ≠ '/') with
  | nil =>
      exfalso
      have hmem : '/' ∈ n.data := by
        rw [hasSlash] at h
        exact List.elem_iff.mp h
      have hall := List.dropWhile_eq_nil_iff.mp hb
      have := hall '/' hmem
      simp at this
  | cons c rest => exact ⟨_, rfl⟩

theorem topLevelNames_ne_nil (names : List String) (n : String)
    (hn : n ∈ names) (h : hasSlash (stripCpuSuffix n) = false) :
    topLevelNames names ≠ [] := by
  apply sortStrings_ne_nil
  apply List.ne_nil_of_mem (a := stripCpuSuffix n)
  rw [List.mem_dedup, List.mem_filter]
  exact ⟨List.mem_map_of_mem stripCpuSuffix hn, by simp [h]⟩

theorem parentNames_ne_nil (names : List String) (n : String)
    (hn : n ∈ names) (h : hasSlash (stripCpuSuffix n) = true) :
    parentNames names ≠ [] := by
  apply sortStrings_ne_nil
  obtain ⟨p, hp⟩ := splitOnFirstSlash_isSome _ h
  apply List.ne_nil_of_mem (a := p.1)
  rw [List.mem_dedup, List.mem_filterMap]
  exact ⟨stripCpuSuffix n, List.mem_map_of_mem stripCpuSuffix hn,
    by simp [hp]⟩

/-- C4. For every list of unresolved benchmark names that mixes at
least one top-level name and at least one parent/sub-name pair, filter
construction produces exactly two filter expressions — one matching
only the top-level names, one matching the parent/sub-name pairs —
after stripping any trailing hyphen-number suffix from each name; the
example set `BenchmarkTop, BenchmarkParent/SubA` yields exactly two
expressions, not one (see the witness). -/
theorem C4_two_filters (names : List String)
    (h1 : ∃ n ∈ names, hasSlash (stripCpuSuffix n) = false)
    (h2 : ∃ n ∈ names, hasSlash (stripCpuSuffix n) = true) :
    create_benchmark_filters names =
      ["^(" ++ String.intercalate "|" (topLevelNames names) ++ ")$",
       "^(" ++ String.intercalate "|" (parentNames names) ++ ")$/^(" ++
         String.intercalate "|" (subtestNames names) ++ ")$"] ∧
    (create_benchmark_filters names).length = 2 := by
  obtain ⟨n1, hn1, hs1⟩ := h1
  obtain ⟨n2, hn2, hs2⟩ := h2
  have ht := topLevelNames_ne_nil names n1 hn1 hs1
  have hp := parentNames_ne_nil names n2 hn2 hs2
  constructor
  · simp [create_benchmark_filters, if_pos ht, if_pos hp]
  · simp [create_benchmark_filters, if_pos ht, if_pos hp]

/-- Witness for C4 at the spec's example set: two filter expressions,
not one. -/
theorem C4_two_filters_witness :
    create_benchmark_filters ["BenchmarkTop", "BenchmarkParent/SubA"] =
      ["^(BenchmarkTop)$", "^(BenchmarkParent)$/^(SubA)$"] ∧
    (create_benchmark_filters
      ["BenchmarkTop", "BenchmarkParent/SubA"]).length = 2 ∧
    (create_benchmark_filters
      ["BenchmarkTop", "BenchmarkParent/SubA"]).length ≠ 1 := by
  have h := C4_two_filters ["BenchmarkTop", "BenchmarkParent/SubA"]
    ⟨"BenchmarkTop", by decide, by decide⟩
    ⟨"BenchmarkParent/SubA", by decide, by decide⟩
  refine ⟨?_, h.2, by rw [h.2]; decide⟩
  rw [h.1]
  decide

theorem stringDataEq {a b : String} (h : a.data = b.data) : a = b := by
  cases a
  cases b
  exact congrArg String.mk h

theorem strEndsWith_iff (s pat : String) :
    strEndsWith s pat = true ↔ ∃ b : String, s = b ++ pat := by
  constructor
  · intro h
    rw [strEndsWith, Bool.and_eq_true] at h
    obtain ⟨h1, h2⟩ := h
    have hdrop : s.data.drop (s.data.length - pat.data.length) = pat.data :=
      by simpa using h2
    refine ⟨String.mk (s.data.take (s.data.length - pat.data.length)), ?_⟩
    apply stringDataEq
    rw [String.data_append]
    show s.data = s.data.take (s.data.length - pat.data.length) ++ pat.data
    have hsplit := List.take_append_drop
      (s.data.length - pat.data.length) s.data
    rw [hdrop] at hsplit
    exact hsplit.symm
  · rintro ⟨b, rfl⟩
    rw [strEndsWith, Bool.and_eq_true]
    constructor
    · apply decide_eq_true
      simp [String.data_append]
    · have hlen : (b ++ pat).data.length - pat.data.length =
          b.data.length := by
        simp [String.data_append]
      rw [hlen, String.data_append, List.drop_left]
      simp

/-- C9. For every resume-file path whose stem ends with the
`_failed_benchmarks` marker, deriving the original report path removes
that marker and replaces the extension with `.txt` in the same
directory; for every path whose stem lacks that marker, the derivation
raises a format-validation error instead of returning a path. -/
theorem C9_derive_original (p : PurePath) :
    (∀ base : String,
      pathStem p.fileName = base ++ "_failed_benchmarks" →
      derive_original_output_file p =
        Except.ok ⟨p.parent, base ++ ".txt"⟩) ∧
    (strEndsWith (pathStem p.fileName) "_failed_benchmarks" = false →
      derive_original_output_file p =
        Except.error ("Invalid failed benchmarks filename: " ++
          p.fileName ++ " (expected format: *_failed_benchmarks.txt)")) := by
  constructor
  · intro base hbase
    have hends : strEndsWith (pathStem p.fileName) "_failed_benchmarks"
        = true := (strEndsWith_iff _ _).mpr ⟨base, hbase⟩
    unfold derive_original_output_file
    rw [if_pos hends, hbase]
    have htake : (base ++ ("_failed_benchmarks" : String)).data.take
        ((base ++ ("_failed_benchmarks" : String)).data.length - 18) =
        base.data := by
      rw [String.data_append]
      have h18 : ("_failed_benchmarks" : String).data.length = 18 := by
        decide
      rw [List.length_append, h18, Nat.add_sub_cancel]
      exact List.take_left base.data _
    rw [htake]
  · intro hends
    unfold derive_original_output_file
    rw [if_neg (by simp [hends])]

/-- Witness for C9 at the spec's example file names: the marker is
stripped and `.txt` re-attached; a name without the marker errors. -/
theorem C9_derive_original_witness :
    derive_original_output_file
      ⟨["results", "stable", "go1.23"],
        "2026-01-26_21-55-10_failed_benchmarks.txt"⟩ =
      Except.ok ⟨["results", "stable", "go1.23"],
        "2026-01-26_21-55-10" ++ ".txt"⟩ ∧
    derive_original_output_file ⟨["results"], "2026-01-26.txt"⟩ =
      Except.error ("Invalid failed benchmarks filename: " ++
        "2026-01-26.txt" ++ " (expected format: *_failed_benchmarks.txt)") :=
  ⟨(C9_derive_original _).1 "2026-01-26_21-55-10" (by decide),
   (C9_derive_original _).2 (by decide)⟩

theorem retryLoop_stop (ex : Nat → Option (List String)) (maxR rc : Nat)
    (failed : List String) (h : failed = [] ∨ maxR ≤ rc) :
    retryLoop ex maxR rc failed = (failed, rc) := by
  rw [retryLoop]
  rw [dif_neg]
  push_neg
  intro hne
  rcases h with h | h
  · exact absurd h hne
  · omega

theorem retryLoop_post (ex : Nat → Option (List String)) (maxR rc : Nat)
    (failed : List String) (hrc : rc ≤ maxR) :
    (retryLoop ex maxR rc failed).2 ≤ maxR ∧
    ((retryLoop ex maxR rc failed).1 = [] ∨
      (retryLoop ex maxR rc failed).2 = maxR ∨
      ex ((retryLoop ex maxR rc failed).2) = none) := by
  revert hrc
  induction rc, failed using retryLoop.induct ex maxR with
  | case1 rc failed h hex =>
      intro hrc
      rw [retryLoop, dif_pos h, hex]
      exact ⟨h.2, Or.inr (Or.inr hex)⟩
  | case2 rc failed h retryFailed hex ih =>
      intro hrc
      rw [retryLoop, dif_pos h, hex]
      exact ih h.2
  | case3 rc failed h =>
      intro hrc
      rw [retryLoop, dif_neg h]
      push_neg at h
      refine ⟨hrc, ?_⟩
      by_cases hf : failed = []
      · exact Or.inl hf
      · exact Or.inr (Or.inl (Nat.le_antisymm hrc (h hf)))

/-- C5. For every initial failing set and every `max_reruns ≥ 0`, the
retry loop terminates (it is a total function, by the decreasing
measure `max_reruns - retry_count` of the source loop), stopping as
soon as the remaining failing set is empty or the retry counter
reaches `max_reruns` (whichever comes first; an executor failure
during a retry also stops the loop without aborting the session), and
the final reported failing set — the first component of the result —
is whatever names remain unresolved at that point. -/
theorem C5_retry_loop (ex : Nat → Option (List String)) (maxR : Nat)
    (f0 : List String) :
    (retryLoop ex maxR 0 f0).2 ≤ maxR ∧
    ((retryLoop ex maxR 0 f0).1 = [] ∨
      (retryLoop ex maxR 0 f0).2 = maxR ∨
      ex ((retryLoop ex maxR 0 f0).2) = none) ∧
    (∀ rc failed, failed = [] ∨ maxR ≤ rc →
      retryLoop ex maxR rc failed = (failed, rc)) ∧
    (∀ rc failed, failed ≠ [] → rc < maxR → ex (rc + 1) = none →
      retryLoop ex maxR rc failed = (failed, rc + 1)) := by
  refine ⟨(retryLoop_post ex maxR 0 f0 (Nat.zero_le maxR)).1,
    (retryLoop_post ex maxR 0 f0 (Nat.zero_le maxR)).2,
    retryLoop_stop ex maxR, ?_⟩
  intro rc failed hne hlt hex
  rw [retryLoop, dif_pos ⟨hne, hlt⟩, hex]

/-- Witness for C5: an empty failing set stops the loop immediately,
and an executor failure on the first retry stops it after one round. -/
theorem C5_retry_loop_witness :
    retryLoop (fun _ => some ["BenchmarkA"]) 2 0 [] = ([], 0) ∧
    retryLoop (fun _ => none) 2 0 ["BenchmarkA"] = (["BenchmarkA"], 1) :=
  ⟨(C5_retry_loop (fun _ => some ["BenchmarkA"]) 2 []).2.2.1 0 []
      (Or.inl rfl),
   (C5_retry_loop (fun _ => none) 2 ["BenchmarkA"]).2.2.2 0 ["BenchmarkA"]
      (by decide) (by decide) rfl⟩

theorem mem_firstSeen (l : List String) (n : String) :
    n ∈ firstSeen l ↔ n ∈ l := by
  suffices h : ∀ acc : List String,
      n ∈ l.foldl
        (fun acc m => if acc.contains m then acc else acc ++ [m]) acc ↔
      n ∈ acc ∨ n ∈ l by
    simpa [firstSeen] using h []
  induction l with
  | nil => intro acc; simp
  | cons a t ih =>
      intro acc
      rw [List.foldl_cons]
      by_cases hc : acc.contains a = true
      · rw [if_pos hc, ih]
        have ha : a ∈ acc := List.elem_iff.mp hc
        simp only [List.mem_cons]
        constructor
        · rintro (h | h)
          · exact Or.inl h
          · exact Or.inr (Or.inr h)
        · rintro (h | h | h)
          · exact Or.inl h
          · exact Or.inl (h ▸ ha)
          · exact Or.inr h
      · rw [if_neg hc, ih]
        simp only [List.mem_append, List.mem_singleton, List.mem_cons]
        tauto

theorem mem_calculate_stats (results : List BenchmarkResult)
    (s : BenchmarkStats) :
    s ∈ calculate_stats results ↔
      ∃ n, n ∈ firstSeen (results.map (fun r => r.name)) ∧
        2 ≤ (groupValues results n).length ∧
        s = statRecord n (groupValues results n) := by
  unfold calculate_stats
  rw [List.mem_filterMap]
  constructor
  · rintro ⟨n, hn, hf⟩
    by_cases h : (groupValues results n).length < 2
    · rw [if_pos h] at hf
      exact absurd hf (by simp)
    · rw [if_neg h] at hf
      exact ⟨n, hn, by omega, (Option.some.inj hf).symm⟩
  · rintro ⟨n, hn, h2, rfl⟩
    exact ⟨n, hn, by rw [if_neg (by omega)]⟩

theorem statRecord_cv_nonneg (n : String) (values : List ℝ) :
    0 ≤ (statRecord n values).cv := by
  unfold statRecord
  dsimp only
  split_ifs with h
  · have h1 : 0 ≤ pyStdev values := Real.sqrt_nonneg _
    have h2 : 0 ≤ pyStdev values / pyMean values := div_nonneg h1 h.le
    nlinarith
  · exact le_refl 0

theorem category_spec (s : BenchmarkStats) :
    (s.category = "good" ↔ s.cv < 5) ∧
    (s.category = "acceptable" ↔ 5 ≤ s.cv ∧ s.cv < 10) ∧
    (s.category = "warning" ↔ 10 ≤ s.cv ∧ s.cv < 15) ∧
    (s.category = "high" ↔ 15 ≤ s.cv ∧ s.cv < 30) ∧
    (s.category = "very_high" ↔ 30 ≤ s.cv) := by
  unfold BenchmarkStats.category
  unfold VARIANCE_GOOD VARIANCE_ACCEPTABLE VARIANCE_WARNING VARIANCE_HIGH
  split_ifs with h1 h2 h3 h4 <;>
    refine ⟨?_, ?_, ?_, ?_, ?_⟩ <;> constructor <;> intro hh <;>
    first
      | rfl
      | linarith
      | exact absurd hh (by decide)
      | (constructor <;> linarith)

theorem passed_iff (s : BenchmarkStats) :
    s.passed = true ↔ s.cv < 15 := by
  unfold BenchmarkStats.passed VARIANCE_WARNING
  exact decide_eq_true_iff

theorem passed_false_iff (s : BenchmarkStats) :
    s.passed = false ↔ 15 ≤ s.cv := by
  rw [← Bool.not_eq_true, passed_iff, not_lt]

theorem highCat_iff (s : BenchmarkStats) :
    (s.category == "high" || s.category == "very_high") = true ↔
      15 ≤ s.cv := by
  rw [Bool.or_eq_true, beq_iff_eq, beq_iff_eq]
  have hs := category_spec s
  constructor
  · rintro (h | h)
    · exact (hs.2.2.2.1.mp h).1
    · linarith [hs.2.2.2.2.mp h]
  · intro h15
    by_cases h30 : s.cv < 30
    · exact Or.inl (hs.2.2.2.1.mpr ⟨h15, h30⟩)
    · exact Or.inr (hs.2.2.2.2.mpr (by linarith))

theorem mem_analyze_failed (stats : List BenchmarkStats)
    (threshold : ℝ) (n : String) :
    n ∈ analyze_failed stats threshold ↔
      ∃ s ∈ stats, s.name = n ∧ s.passed = false ∧ threshold < s.cv := by
  unfold analyze_failed
  rw [List.mem_map]
  constructor
  · rintro ⟨s, hs, rfl⟩
    rw [List.mem_filter] at hs
    obtain ⟨hsort, hth⟩ := hs
    rw [mem_isortBy, List.mem_filter] at hsort
    obtain ⟨hmem, hcat⟩ := hsort
    exact ⟨s, hmem, rfl, (passed_false_iff s).mpr ((highCat_iff s).mp hcat),
      of_decide_eq_true hth⟩
  · rintro ⟨s, hmem, rfl, hpass, hth⟩
    refine ⟨s, ?_, rfl⟩
    rw [List.mem_filter]
    refine ⟨(mem_isortBy _ _ _).mpr (List.mem_filter.mpr
      ⟨hmem, (highCat_iff s).mpr ((passed_false_iff s).mp hpass)⟩),
      decide_eq_true hth⟩

theorem groupValues_nonneg (results : List BenchmarkResult)
    (hnn : ∀ r ∈ results, 0 ≤ r.ns_per_op) (n : String) :
    ∀ v ∈ groupValues results n, 0 ≤ v := by
  intro v hv
  rw [groupValues, List.mem_map] at hv
  obtain ⟨r, hr, rfl⟩ := hv
  exact hnn r (List.mem_of_mem_filter hr)

theorem pyMean_nonneg (xs : List ℝ) (h : ∀ v ∈ xs, 0 ≤ v) :
    0 ≤ pyMean xs := by
  unfold pyMean
  exact div_nonneg (List.sum_nonneg h) (Nat.cast_nonneg _)

/-- C6. For every list of parsed samples, the statistics computation
groups samples by benchmark name, produces statistics only for names
with at least 2 samples (names with exactly 1 sample are silently
skipped, not an error), and for each retained name computes the sample
mean, sample standard deviation, and `CV = stddev / mean × 100`, with
CV defined as 0 when the mean is 0. (Parsed samples are nonnegative:
the report-line regex only admits unsigned numerals, which the
hypothesis `hnn` records.) -/
theorem C6_stats_contract (results : List BenchmarkResult)
    (hnn : ∀ r ∈ results, 0 ≤ r.ns_per_op) :
    (∀ n : String, (∃ s ∈ calculate_stats results, s.name = n) ↔
        2 ≤ (groupValues results n).length) ∧
    (∀ s ∈ calculate_stats results,
        s.mean = pyMean (groupValues results s.name) ∧
        s.stddev = Real.sqrt (pyVariance (groupValues results s.name)) ∧
        (s.mean = 0 → s.cv = 0) ∧
        (s.mean ≠ 0 → s.cv = s.stddev / s.mean * 100)) := by
  constructor
  · intro n
    constructor
    · rintro ⟨s, hs, rfl⟩
      obtain ⟨m, -, hlen, rfl⟩ := (mem_calculate_stats results s).mp hs
      exact hlen
    · intro h2
      have hne : results.filter (fun r => r.name == n) ≠ [] := by
        intro hc
        rw [groupValues, hc] at h2
        simp at h2
      obtain ⟨r, hr⟩ := List.exists_mem_of_ne_nil _ hne
      have hrn : r.name = n := by
        have := List.of_mem_filter hr
        simpa using this
      have hnmem : n ∈ firstSeen (results.map (fun r => r.name)) := by
        rw [mem_firstSeen, List.mem_map]
        exact ⟨r, List.mem_of_mem_filter hr, hrn⟩
      exact ⟨statRecord n (groupValues results n),
        (mem_calculate_stats results _).mpr ⟨n, hnmem, h2, rfl⟩, rfl⟩
  · intro s hs
    obtain ⟨n, -, hlen, rfl⟩ := (mem_calculate_stats results s).mp hs
    have hmean0 : 0 ≤ pyMean (groupValues results n) :=
      pyMean_nonneg _ (groupValues_nonneg results hnn n)
    refine ⟨rfl, rfl, ?_, ?_⟩
    · intro hm
      have hm' : pyMean (groupValues results n) = 0 := hm
      show (if 0 < pyMean (groupValues results n) then
          pyStdev (groupValues results n) /
            pyMean (groupValues results n) * 100 else 0) = 0
      rw [if_neg (by rw [hm']; exact lt_irrefl 0)]
    · intro hm
      have hm' : pyMean (groupValues results n) ≠ 0 := hm
      show (if 0 < pyMean (groupValues results n) then
          pyStdev (groupValues results n) /
            pyMean (groupValues results n) * 100 else 0) =
        pyStdev (groupValues results n) / pyMean (groupValues results n)
          * 100
      rw [if_pos (lt_of_le_of_ne hmean0 (Ne.symm hm'))]

/-- Witness for C6 at a concrete two-sample report. -/
theorem C6_stats_contract_witness :
    (∃ s ∈ calculate_stats
        [⟨"BenchmarkX", 1000, 100, none, none⟩,
         ⟨"BenchmarkX", 1000, 200, none, none⟩], s.name = "BenchmarkX") ↔
      2 ≤ (groupValues
        [⟨"BenchmarkX", 1000, 100, none, none⟩,
         ⟨"BenchmarkX", 1000, 200, none, none⟩] "BenchmarkX").length :=
  (C6_stats_contract _ (by
    intro r hr
    simp only [List.mem_cons, List.mem_singleton] at hr
    rcases hr with rfl | rfl | h
    · norm_num
    · norm_num
    · simp at h)).1 "BenchmarkX"

/-- C7. For every sample set with at least 2 values (i.e. every entry
the statistics computation retains), the computed CV is nonnegative,
and the variance category is a total, deterministic, monotonic
function of CV alone against the ascending thresholds 5/10/15/30
(good < 5, acceptable < 10, warning < 15, high < 30, very_high ≥ 30),
with the `passed` predicate holding iff CV < 15. (Totality and
determinism hold because `BenchmarkStats.category` is a function; the
second conjunct shows it depends on the `cv` field alone.) -/
theorem C7_variance_classification :
    (∀ (results : List BenchmarkResult), ∀ s ∈ calculate_stats results,
      0 ≤ s.cv) ∧
    (∀ s t : BenchmarkStats, s.cv = t.cv → s.category = t.category) ∧
    (∀ s t : BenchmarkStats, s.cv ≤ t.cv →
      catRank s.category ≤ catRank t.category) ∧
    (∀ s : BenchmarkStats,
      (s.category = "good" ↔ s.cv < 5) ∧
      (s.category = "acceptable" ↔ 5 ≤ s.cv ∧ s.cv < 10) ∧
      (s.category = "warning" ↔ 10 ≤ s.cv ∧ s.cv < 15) ∧
      (s.category = "high" ↔ 15 ≤ s.cv ∧ s.cv < 30) ∧
      (s.category = "very_high" ↔ 30 ≤ s.cv)) ∧
    (∀ s : BenchmarkStats, s.passed = true ↔ s.cv < 15) := by
  refine ⟨?_, ?_, ?_, category_spec, passed_iff⟩
  · intro results s hs
    obtain ⟨n, -, -, rfl⟩ := (mem_calculate_stats results s).mp hs
    exact statRecord_cv_nonneg n _
  · intro s t h
    unfold BenchmarkStats.category
    rw [h]
  · intro s t h
    unfold BenchmarkStats.category
    unfold VARIANCE_GOOD VARIANCE_ACCEPTABLE VARIANCE_WARNING
      VARIANCE_HIGH
    split_ifs <;> first | (simp [catRank]; done) | (exfalso; linarith)

/-- Witness for C7 at concrete statistics records: monotonicity at
CV 3 versus CV 20, and the `passed` predicate at CV 3. -/
theorem C7_variance_classification_witness :
    catRank (BenchmarkStats.category ⟨"B", 2, 100, 3, 3, 99, 103⟩) ≤
      catRank (BenchmarkStats.category ⟨"B", 2, 100, 20, 20, 80, 120⟩) ∧
    (BenchmarkStats.passed ⟨"B", 2, 100, 3, 3, 99, 103⟩ = true ↔
      (3 : ℝ) < 15) :=
  ⟨C7_variance_classification.2.2.1 _ _ (by norm_num),
   C7_variance_classification.2.2.2.2 ⟨"B", 2, 100, 3, 3, 99, 103⟩⟩

theorem exVar_groupValues :
    groupValues exVarResults "BenchmarkX" = [(85 : ℝ), 115, 100] := by
  simp [groupValues, exVarResults]

theorem exVar_mean : pyMean [(85 : ℝ), 115, 100] = 100 := by
  simp only [pyMean, List.sum_cons, List.sum_nil, List.length_cons,
    List.length_nil]
  norm_num

theorem exVar_variance : pyVariance [(85 : ℝ), 115, 100] = 225 := by
  simp only [pyVariance, exVar_mean, List.map_cons, List.map_nil,
    List.sum_cons, List.sum_nil, List.length_cons, List.length_nil]
  norm_num

theorem exVar_stdev : pyStdev [(85 : ℝ), 115, 100] = 15 := by
  rw [pyStdev, exVar_variance, show (225 : ℝ) = 15 ^ 2 by norm_num,
    Real.sqrt_sq (by norm_num : (0 : ℝ) ≤ 15)]

theorem exVar_cv :
    (statRecord "BenchmarkX" [(85 : ℝ), 115, 100]).cv = 15 := by
  show (if 0 < pyMean [(85 : ℝ), 115, 100] then
      pyStdev [(85 : ℝ), 115, 100] / pyMean [(85 : ℝ), 115, 100] * 100
    else 0) = 15
  rw [if_pos (by rw [exVar_mean]; norm_num), exVar_mean, exVar_stdev]
  norm_num

theorem exVar_stats :
    calculate_stats exVarResults =
      [statRecord "BenchmarkX" [(85 : ℝ), 115, 100]] := by
  have hfs : firstSeen (exVarResults.map (fun r => r.name)) =
      ["BenchmarkX"] := by decide
  unfold calculate_stats
  rw [hfs, List.filterMap_cons, List.filterMap_nil, exVar_groupValues]
  rw [if_neg (by norm_num)]

/-- C2, counterexample. The claim says the fail set driving the retry
loop is exactly the set of names whose statistics do not pass (CV not
below the threshold). At the default threshold 15 a benchmark whose CV
is exactly 15 (samples 85, 115, 100 ns/op) does not pass, yet
`analyze_variance` does not put it in the fail set, because the source
appends a name only when `cv > threshold` holds strictly. -/
theorem C2_counterexample :
    (∃ s ∈ calculate_stats exVarResults,
      s.name = "BenchmarkX" ∧ s.passed = false) ∧
    "BenchmarkX" ∉ analyze_failed (calculate_stats exVarResults) 15 := by
  have hpass : (statRecord "BenchmarkX" [(85 : ℝ), 115, 100]).passed
      = false := by
    rw [(passed_false_iff _), exVar_cv]
  constructor
  · exact ⟨statRecord "BenchmarkX" [(85 : ℝ), 115, 100],
      by rw [exVar_stats]; exact List.mem_singleton.mpr rfl, rfl, hpass⟩
  · intro hmem
    obtain ⟨s, hs, -, -, hth⟩ := (mem_analyze_failed _ _ _).mp hmem
    rw [exVar_stats, List.mem_singleton] at hs
    subst hs
    rw [exVar_cv] at hth
    exact absurd hth (by norm_num)

/-- C2, amended. For every parsed report's statistics and configured
variance threshold, the fail set that drives the retry loop is exactly
the set of benchmark names whose statistics do not pass (CV at least
the 15 % warning level) AND whose CV strictly exceeds the configured
threshold; the run is Done (no further retries) as soon as that set is
empty. -/
theorem C2_fail_set (stats : List BenchmarkStats) (threshold : ℝ)
    (n : String) :
    (n ∈ analyze_failed stats threshold ↔
      ∃ s ∈ stats, s.name = n ∧ s.passed = false ∧ threshold < s.cv) ∧
    (∀ ex maxR rc, retryLoop ex maxR rc [] = ([], rc)) :=
  ⟨mem_analyze_failed stats threshold n,
   fun ex maxR rc => retryLoop_stop ex maxR rc [] (Or.inl rfl)⟩

/-- Witness for C2 (amended): with no failing benchmarks the retry
loop stops at once. -/
theorem C2_fail_set_witness :
    retryLoop (fun _ => some ["BenchmarkY"]) 4 1 [] = ([], 1) :=
  (C2_fail_set [] 15 "BenchmarkY").2 (fun _ => some ["BenchmarkY"]) 4 1
